import Mathlib

/-!
Verification of `cheroot/connections.py` (`ConnectionManager`).

The Python class is shallowly embedded as a pure state-transition system:

* `Conn` models a managed `HTTPConnection` as seen by the manager: its
  socket file descriptor (`conn.socket.fileno()`), its last-activity
  timestamp `last_used`, and the `conn.rfile.has_data()` flag.
* `CMState` holds the mutable fields of `ConnectionManager`:
  `_readable_conns` and `_put_q` (deques, modelled as lists with append
  on the right and popleft on the left), the selector registration table
  (fd paired with the registration's `data` field), and `_num_conns`.
  `ctrl_bytes` counts the control bytes (`b'P'`) written to `_ctrl_tx`
  and not yet drained from `_ctrl_rx`; `closed_log` records, in order,
  every connection on which `.close()` was called.
* Time (`time.time()`) is passed in explicitly as an integer timestamp.
-/

/-- A managed connection (`cheroot.server.HTTPConnection`), restricted to
the fields `ConnectionManager` reads or writes: `socket.fileno()`,
`last_used`, and the result of `rfile.has_data()`. -/
structure Conn where
  id : Nat
  fd : Nat
  last_used : Int
  rfile_has_data : Bool
deriving DecidableEq, Repr

/-- The `data` field of a selector registration: `server` (the listening
socket's registration, `data=server`), `ctrlRx` (the control channel's
receive end, `data=self._ctrl_rx`), or a client connection
(`data=conn`). -/
inductive SelData where
  | server : SelData
  | ctrlRx : SelData
  | client : Conn → SelData
deriving DecidableEq, Repr

/-- The mutable state of a `ConnectionManager`. -/
structure CMState where
  readable_conns : List Conn
  put_q : List Conn
  selector : List (Nat × SelData)
  num_conns : Int
  ctrl_bytes : Nat
  closed_log : List Conn
deriving DecidableEq, Repr

/-- Server-level configuration read by the manager
(`self.server.timeout`, `self.server.keep_alive_conn_limit`,
`self.server.protocol`, `self.server.stats['Enabled']`, whether
`self.server.ssl_adapter` is set, and whether `self.server.bind_addr`
is a string/bytes (file-system path style) address). -/
structure ServerCfg where
  timeout : Int
  keep_alive_conn_limit : Option Int
  protocol : String
  stats_enabled : Bool
  has_ssl_adapter : Bool
  bind_addr_is_path : Bool

/-- The fresh manager state built by `__init__`: both queues empty, the
listening socket and the control channel receive end registered, count
zero. -/
def initState (serverFd ctrlFd : Nat) : CMState :=
  { readable_conns := []
    put_q := []
    selector := [(serverFd, SelData.server), (ctrlFd, SelData.ctrlRx)]
    num_conns := 0
    ctrl_bytes := 0
    closed_log := [] }

/-- The client-connection registrations in a selector table: every
registration whose `data` is neither the server nor the control channel
receive end. -/
def clientRegs (l : List (Nat × SelData)) : List (Nat × Conn) :=
  l.filterMap fun r =>
    match r.2 with
    | SelData.client c => some (r.1, c)
    | _ => none

/-- `_get_selector_conns`: the client-connection registrations currently
in the selector, with their fds. -/
def getSelectorConns (s : CMState) : List (Nat × Conn) :=
  clientRegs s.selector

/-- Just the client connections registered with the selector. -/
def selClients (s : CMState) : List Conn :=
  (getSelectorConns s).map Prod.snd

/-- `put(conn)`: increment `_num_conns`, stamp `conn.last_used = time.time()`;
if `conn.rfile.has_data()` append to `_readable_conns`, otherwise append to
`_put_q` and send one `_CTRL_MSG_PUT` byte over the control channel. -/
def put (s : CMState) (conn : Conn) (now : Int) : CMState :=
  let conn2 : Conn := { conn with last_used := now }
  let s2 : CMState := { s with num_conns := s.num_conns + 1 }
  if conn2.rfile_has_data then
    { s2 with readable_conns := s2.readable_conns ++ [conn2] }
  else
    { s2 with put_q := s2.put_q ++ [conn2], ctrl_bytes := s2.ctrl_bytes + 1 }

/-- `_pop_readable_conn`: popleft from `_readable_conns` and decrement
`_num_conns`; `none` models the `IndexError` raised on an empty deque
(in which case nothing is mutated). -/
def popReadableConn (s : CMState) : Option (Conn × CMState) :=
  match s.readable_conns with
  | [] => none
  | c :: rest =>
    some (c, { s with readable_conns := rest, num_conns := s.num_conns - 1 })

/-- `_remove_conn(sock_fd, conn)`: unregister `sock_fd` from the selector,
close `conn`, decrement `_num_conns`. -/
def removeConn (s : CMState) (sock_fd : Nat) (conn : Conn) : CMState :=
  { s with
      selector := s.selector.filter fun r => r.1 != sock_fd
      closed_log := s.closed_log ++ [conn]
      num_conns := s.num_conns - 1 }

/-- Sequentially `_remove_conn` each listed (fd, conn) pair, as the loops
in `expire` and `_remove_invalid_sockets` do. -/
def removeAll (ps : List (Nat × Conn)) (s : CMState) : CMState :=
  ps.foldl (fun st p => removeConn st p.1 p.2) s

/-- `_process_ctrl_msg`: `recv(1)` drains one control byte (the caller
only invokes this on a readiness event of `_ctrl_rx`, i.e. when
`ctrl_bytes > 0`; with `ctrl_bytes = 0` the real `recv` would block);
the byte is `_CTRL_MSG_PUT` (nothing else is ever sent), so popleft one
connection from `_put_q` and register it with the selector. The boolean
is `true` when the popleft raised `IndexError` (empty `_put_q`). -/
def processCtrlMsg (s : CMState) : CMState × Bool :=
  let s2 : CMState := { s with ctrl_bytes := s.ctrl_bytes - 1 }
  match s2.put_q with
  | [] => (s2, true)
  | c :: rest =>
    ({ s2 with
        put_q := rest
        selector := s2.selector ++ [(c.fd, SelData.client c)] }, false)

/-- `expire()`: collect every selector-registered client connection with
`conn.last_used < time.time() - self.server.timeout` and `_remove_conn`
each of them. -/
def expire (cfg : ServerCfg) (s : CMState) (now : Int) : CMState :=
  let threshold : Int := now - cfg.timeout
  let timed_out : List (Nat × Conn) :=
    (getSelectorConns s).filter fun p => p.2.last_used < threshold
  timed_out.foldl (fun st p => removeConn st p.1 p.2) s

/-- `_remove_invalid_sockets`: `_remove_conn` every selector-registered
client connection whose fd fails the `os.fstat` liveness probe. -/
def removeInvalidSockets (s : CMState) (validFd : Nat → Bool) : CMState :=
  let invalid : List (Nat × Conn) :=
    (getSelectorConns s).filter fun p => !validFd p.1
  invalid.foldl (fun st p => removeConn st p.1 p.2) s

/-- `close()`: close every connection in `_readable_conns` and clear it;
close every selector-registered client connection. (`_ctrl_tx.close()`,
`_ctrl_rx.close()` and `_selector.close()` release OS resources with no
observable effect on the fields modelled here; `_put_q` and `_num_conns`
are not touched.) -/
def close (s : CMState) : CMState :=
  { s with
      closed_log := (s.closed_log ++ s.readable_conns) ++ selClients s
      readable_conns := [] }

/-- `can_add_keepalive_connection`:
`ka_limit is None or self._num_conns < ka_limit`. -/
def canAddKeepaliveConnection (cfg : ServerCfg) (s : CMState) : Bool :=
  match cfg.keep_alive_conn_limit with
  | none => true
  | some ka_limit => s.num_conns < ka_limit

/-- The counted-placements invariant documented at `_num_conns`: the count
equals the number of connections across `_readable_conns`, `_put_q` and the
selector's client registrations. -/
def countInv (s : CMState) : Prop :=
  s.num_conns =
    (s.readable_conns.length : Int) + s.put_q.length + (selClients s).length

instance (s : CMState) : Decidable (countInv s) := by
  unfold countInv; infer_instance

/-- The control-channel discipline: one undrained control byte per entry
of `_put_q`. -/
def ctrlInv (s : CMState) : Prop :=
  s.ctrl_bytes = s.put_q.length

instance (s : CMState) : Decidable (ctrlInv s) := by
  unfold ctrlInv; infer_instance

/-!
## `get_conn`

`get_conn` first tries `_pop_readable_conn` (suppressing `IndexError`);
only when that fails does it call `self._selector.select(timeout=0.01)`.
The outcome of the select call is an input to the model: either an
`OSError` (with the `os.fstat` liveness oracle used by the ensuing
`_remove_invalid_sockets`), or a ready list of selector keys
(fd, data).  The listening-socket branch calls `_from_server_socket`,
whose outcome — a propagated `socket.error` errno, or an optional new
connection — is likewise an input here and is modelled in full further
below. -/

/-- The outcome of `self._selector.select(timeout=0.01)`. -/
inductive SelectOutcome where
  | oserror : (Nat → Bool) → SelectOutcome
  | ready : List (Nat × SelData) → SelectOutcome

/-- An exception escaping `get_conn`: a fatal `socket.error` errno
propagated from `_from_server_socket`, or the `IndexError` from
`_put_q.popleft()` in `_process_ctrl_msg`. -/
inductive GetErr where
  | sockErr : Nat → GetErr
  | ctrlIndexError : GetErr
deriving DecidableEq, Repr

/-- Result of one `get_conn` call: final state, returned connection (if
any), escaped exception (if any), and whether the select call was
reached (`waited`). -/
structure GetConnResult where
  st : CMState
  ret : Option Conn
  err : Option GetErr
  waited : Bool
deriving Repr

/-- The `for key in rlist:` loop of `get_conn`, followed by the final
`_pop_readable_conn` attempt.  `accept` is the outcome of
`_from_server_socket` on the listening socket. -/
def getConnLoop (accept : Except Nat (Option Conn)) :
    CMState → List (Nat × SelData) → GetConnResult
  | s, [] =>
    match popReadableConn s with
    | some (c, s2) => ⟨s2, some c, none, true⟩
    | none => ⟨s, none, none, true⟩
  | s, (fd, d) :: rest =>
    match d with
    | SelData.ctrlRx =>
      match processCtrlMsg s with
      | (s2, true) => ⟨s2, none, some GetErr.ctrlIndexError, true⟩
      | (s2, false) => getConnLoop accept s2 rest
    | SelData.server =>
      match accept with
      | Except.error code => ⟨s, none, some (GetErr.sockErr code), true⟩
      | Except.ok c => ⟨s, c, none, true⟩
    | SelData.client c =>
      getConnLoop accept
        { s with
            selector := s.selector.filter fun r => r.1 != fd
            readable_conns := s.readable_conns ++ [c] } rest

/-- `get_conn()`. -/
def getConn (s : CMState) (sel : SelectOutcome)
    (accept : Except Nat (Option Conn)) : GetConnResult :=
  match popReadableConn s with
  | some (c, s2) => ⟨s2, some c, none, false⟩
  | none =>
    match sel with
    | SelectOutcome.oserror validFd =>
      ⟨removeInvalidSockets s validFd, none, none, true⟩
    | SelectOutcome.ready rlist => getConnLoop accept s rlist

/-!
## `_from_server_socket`

The acceptance pipeline is pure given its external inputs: the result of
`server_socket.accept()`, the result of `ssl_adapter.wrap(s)` when an
adapter is configured, and whether the best-effort write of the
synthetic 400 response raised a `socket.error`.  Its observable outputs
are the constructed connection (if any), the propagated errno (if any),
the bytes written to the raw socket, and the stat increments. -/

/-- A raw accepted socket: its fd and the arity of `getsockname()`
(2 for `AF_INET`, more for `AF_INET6`). -/
structure Sock where
  fd : Nat
  sockname_len : Nat
deriving DecidableEq, Repr

/-- Outcome of `server_socket.accept()`: success with socket and peer
address, `socket.timeout`, or `socket.error` with an errno. -/
inductive AcceptInput where
  | ok : Sock → Option (String × Nat) → AcceptInput
  | timeout : AcceptInput
  | sockErr : Nat → AcceptInput

/-- Outcome of `self.server.ssl_adapter.wrap(s)`: a (possibly null)
wrapped socket plus TLS environment, or the `errors.NoSSLError`
condition. -/
inductive WrapOutcome where
  | ok : Option Sock → List (String × String) → WrapOutcome
  | noSSL : WrapOutcome

/-- The connection object built by `self.server.ConnectionClass(...)`
with the attributes `_from_server_socket` sets on it. -/
structure AcceptedConn where
  sock : Sock
  remote_addr : Option String
  remote_port : Option Nat
  ssl_env : List (String × String)
deriving DecidableEq, Repr

/-- Observable result of `_from_server_socket`. -/
structure FSSResult where
  conn : Option AcceptedConn
  raised : Option Nat
  sentBytes : List Nat
  acceptsIncr : Nat
  sockErrorsIncr : Nat
deriving DecidableEq, Repr

/-- Modelled from the spec: the error-code sets `socket_error_eintr`,
`socket_errors_nonblocking` and `socket_errors_to_ignore` imported from
the repository's `errors` module, which is not part of the source under
verification; the spec describes them only as the "interrupted system
call", "retry, no data yet" and "peer already closed" sets, so they are
kept abstract here as membership predicates on errno values. -/
structure ErrorSets where
  eintr : Nat → Bool
  nonblocking : Nat → Bool
  to_ignore : Nat → Bool

/-- The plaintext body of the synthetic 400 response (the two adjacent
Python string literals concatenate). -/
def noSSLMsg : String :=
  "The client sent a plain HTTP request, but this server only speaks HTTPS on this port."

/-- `''.join(buf)` for the synthetic 400 response, exactly as the code
builds it: `'%s 400 Bad Request\r\n' % protocol`,
`'Content-Length: %s\r\n' % len(msg)`,
`'Content-Type: text/plain\r\n\r\n'`, `msg`. -/
def badRequestBuf (protocol : String) : String :=
  ((protocol ++ " 400 Bad Request\r\n"
    ++ ("Content-Length: " ++ toString noSSLMsg.length ++ "\r\n"))
    ++ "Content-Type: text/plain\r\n\r\n")
    ++ noSSLMsg

/-- `.encode('ISO-8859-1')`: one byte per character, each byte the
character's code point (all characters involved are below 256). -/
def encodeLatin1 (s : String) : List Nat :=
  s.data.map Char.toNat

/-- The spec's wire format for the synthetic response, transcribed
verbatim:
`"<protocol> 400 Bad Request\r\nContent-Length: <n>\r\nContent-Type: text/plain\r\n\r\n<message>"`. -/
def specBadRequest (protocol : String) (n : Nat) (msg : String) : String :=
  protocol ++ " 400 Bad Request\r\nContent-Length: " ++ toString n
    ++ "\r\nContent-Type: text/plain\r\n\r\n" ++ msg

/-- Construction of the connection object (lines 274-294): remote
address/port are only attached when `bind_addr` is not a string/bytes
path, with a null peer address defaulted per address family. -/
def mkAcceptedConn (cfg : ServerCfg) (sck : Sock)
    (addr : Option (String × Nat)) (ssl_env : List (String × String)) :
    AcceptedConn :=
  if cfg.bind_addr_is_path then
    { sock := sck, remote_addr := none, remote_port := none, ssl_env := ssl_env }
  else
    let addr2 : String × Nat :=
      match addr with
      | some a => a
      | none => if sck.sockname_len = 2 then ("0.0.0.0", 0) else ("::", 0)
    { sock := sck, remote_addr := some addr2.1, remote_port := some addr2.2,
      ssl_env := ssl_env }

/-- The `except socket.error` handler at the end of `_from_server_socket`
(lines 301-320): bump the Socket Errors stat, swallow errnos in the
eintr / nonblocking / to-ignore sets, re-raise anything else. -/
def classifySockErr (cfg : ServerCfg) (es : ErrorSets) (code : Nat)
    (sent : List Nat) (acceptsIncr : Nat) : FSSResult :=
  let se : Nat := if cfg.stats_enabled then 1 else 0
  if es.eintr code then ⟨none, none, sent, acceptsIncr, se⟩
  else if es.nonblocking code then ⟨none, none, sent, acceptsIncr, se⟩
  else if es.to_ignore code then ⟨none, none, sent, acceptsIncr, se⟩
  else ⟨none, some code, sent, acceptsIncr, se⟩

/-- `_from_server_socket(server_socket)`.  `writeErr` is the errno of a
`socket.error` raised by the best-effort `wfile.write` of the synthetic
400 response (`none` when the write succeeds); a non-ignorable write
error is re-raised and lands in the enclosing `except socket.error`
handler. -/
def fromServerSocket (cfg : ServerCfg) (es : ErrorSets)
    (inp : AcceptInput) (wrap : WrapOutcome) (writeErr : Option Nat) :
    FSSResult :=
  match inp with
  | AcceptInput.timeout => ⟨none, none, [], 0, 0⟩
  | AcceptInput.sockErr code => classifySockErr cfg es code [] 0
  | AcceptInput.ok sck addr =>
    let ac : Nat := if cfg.stats_enabled then 1 else 0
    if cfg.has_ssl_adapter then
      match wrap with
      | WrapOutcome.noSSL =>
        let sent : List Nat := encodeLatin1 (badRequestBuf cfg.protocol)
        match writeErr with
        | none => ⟨none, none, sent, ac, 0⟩
        | some code =>
          if es.to_ignore code then ⟨none, none, sent, ac, 0⟩
          else classifySockErr cfg es code sent ac
      | WrapOutcome.ok none _ => ⟨none, none, [], ac, 0⟩
      | WrapOutcome.ok (some sck2) ssl_env =>
        ⟨some (mkAcceptedConn cfg sck2 addr ssl_env), none, [], ac, 0⟩
    else
      ⟨some (mkAcceptedConn cfg sck addr []), none, [], ac, 0⟩

/-!
## Concrete example data (used to instantiate the theorems below)
-/

/-- A connection whose input buffer reports unconsumed bytes. -/
def connBuf : Conn :=
  { id := 1, fd := 10, last_used := 0, rfile_has_data := true }

/-- A connection with an empty input buffer. -/
def connPlain : Conn :=
  { id := 2, fd := 11, last_used := 0, rfile_has_data := false }

/-- A registered connection last active at time 90. -/
def connAt90 : Conn :=
  { id := 3, fd := 12, last_used := 90, rfile_has_data := false }

/-- A registered connection last active at time 89. -/
def connAt89 : Conn :=
  { id := 4, fd := 13, last_used := 89, rfile_has_data := false }

/-- A freshly accepted connection object used in `get_conn` scenarios. -/
def connNew : Conn :=
  { id := 5, fd := 14, last_used := 100, rfile_has_data := false }

/-- An example configuration: idle timeout 10s, keep-alive cap 2. -/
def cfgEx : ServerCfg :=
  { timeout := 10
    keep_alive_conn_limit := some 2
    protocol := "HTTP/1.1"
    stats_enabled := true
    has_ssl_adapter := false
    bind_addr_is_path := false }

/-- A fresh manager (listening socket fd 3, control receive end fd 4). -/
def exEmpty : CMState := initState 3 4

/-- A manager with `connAt90` and `connAt89` registered with the selector. -/
def exTwoClients : CMState :=
  { readable_conns := []
    put_q := []
    selector := [(3, SelData.server), (4, SelData.ctrlRx),
      (12, SelData.client connAt90), (13, SelData.client connAt89)]
    num_conns := 2
    ctrl_bytes := 0
    closed_log := [] }

/-- A manager with one connection sitting in the pending-put queue and its
control byte undrained. -/
def exPending : CMState :=
  { readable_conns := []
    put_q := [connPlain]
    selector := [(3, SelData.server), (4, SelData.ctrlRx)]
    num_conns := 1
    ctrl_bytes := 1
    closed_log := [] }

/-- A manager with one selector-registered client, used for the `get_conn`
batch scenarios. -/
def exOneClient : CMState :=
  { readable_conns := []
    put_q := []
    selector := [(3, SelData.server), (4, SelData.ctrlRx),
      (12, SelData.client connAt90)]
    num_conns := 1
    ctrl_bytes := 0
    closed_log := [] }

/-- Example abstract error sets: errno 4 is the "interrupted" set,
errno 11 the "retry" set, errnos 32 and 104 the "peer closed" set. -/
def esEx : ErrorSets :=
  { eintr := fun code => code == 4
    nonblocking := fun code => code == 11
    to_ignore := fun code => code == 32 || code == 104 }

/-!
## Lemmas about fd-keyed tables
-/

theorem filter_ne_key_of_not_mem {β : Type} (fd : Nat) (L : List (Nat × β))
    (h : fd ∉ L.map Prod.fst) : L.filter (fun q => q.1 != fd) = L := by
  apply List.filter_eq_self.mpr
  intro q hq
  have hne : q.1 ≠ fd := by
    intro he
    exact h (he ▸ List.mem_map_of_mem Prod.fst hq)
  simpa using hne

theorem key_inj {β : Type} (L : List (Nat × β))
    (hnd : (L.map Prod.fst).Nodup) :
    ∀ p q, p ∈ L → q ∈ L → p.1 = q.1 → p = q := by
  induction L with
  | nil => intro p q hp; cases hp
  | cons h t ih =>
    intro p q hp hq hpq
    rw [List.map_cons, List.nodup_cons] at hnd
    rcases List.mem_cons.mp hp with rfl | hp2
    · rcases List.mem_cons.mp hq with rfl | hq2
      · rfl
      · exfalso
        apply hnd.1
        rw [hpq]
        exact List.mem_map_of_mem Prod.fst hq2
    · rcases List.mem_cons.mp hq with rfl | hq2
      · exfalso
        apply hnd.1
        rw [← hpq]
        exact List.mem_map_of_mem Prod.fst hp2
      · exact ih hnd.2 p q hp2 hq2 hpq

theorem length_filter_ne_key {β : Type} (fd : Nat) (b : β)
    (L : List (Nat × β)) (hnd : (L.map Prod.fst).Nodup)
    (hmem : (fd, b) ∈ L) :
    (L.filter (fun q => q.1 != fd)).length + 1 = L.length := by
  induction L with
  | nil => cases hmem
  | cons h t ih =>
    rw [List.map_cons, List.nodup_cons] at hnd
    by_cases hfd : h.1 = fd
    · have ht : fd ∉ t.map Prod.fst := hfd ▸ hnd.1
      rw [List.filter_cons_of_neg (by simp [hfd]),
        filter_ne_key_of_not_mem fd t ht]
      simp
    · have hmem2 : (fd, b) ∈ t := by
        rcases List.mem_cons.mp hmem with he | ht2
        · exact absurd (congrArg Prod.fst he.symm) hfd
        · exact ht2
      rw [List.filter_cons_of_pos (by simpa using hfd)]
      simp only [List.length_cons]
      rw [← ih hnd.2 hmem2]

theorem mem_filter_ne_key {β : Type} {fd : Nat} {L : List (Nat × β)}
    {q : Nat × β} (hq : q ∈ L) (hne : q.1 ≠ fd) :
    q ∈ L.filter (fun r => r.1 != fd) :=
  List.mem_filter.mpr ⟨hq, by simpa using hne⟩

/-!
## Lemmas about `clientRegs`
-/

theorem clientRegs_nil : clientRegs [] = [] := rfl

theorem clientRegs_cons_server (fd : Nat) (l : List (Nat × SelData)) :
    clientRegs ((fd, SelData.server) :: l) = clientRegs l := rfl

theorem clientRegs_cons_ctrl (fd : Nat) (l : List (Nat × SelData)) :
    clientRegs ((fd, SelData.ctrlRx) :: l) = clientRegs l := rfl

theorem clientRegs_cons_client (fd : Nat) (c : Conn)
    (l : List (Nat × SelData)) :
    clientRegs ((fd, SelData.client c) :: l) = (fd, c) :: clientRegs l := rfl

theorem clientRegs_append (a b : List (Nat × SelData)) :
    clientRegs (a ++ b) = clientRegs a ++ clientRegs b :=
  List.filterMap_append a b _

theorem mem_clientRegs {fd : Nat} {c : Conn} {l : List (Nat × SelData)} :
    (fd, c) ∈ clientRegs l ↔ (fd, SelData.client c) ∈ l := by
  induction l with
  | nil => simp [clientRegs_nil]
  | cons h t ih =>
    obtain ⟨fd2, d⟩ := h
    cases d with
    | server =>
      rw [clientRegs_cons_server]
      simp [ih]
    | ctrlRx =>
      rw [clientRegs_cons_ctrl]
      simp [ih]
    | client c2 =>
      rw [clientRegs_cons_client]
      constructor
      · intro hm
        rcases List.mem_cons.mp hm with he | ht
        · rw [Prod.mk.injEq] at he
          exact List.mem_cons.mpr (Or.inl (by rw [he.1, he.2]))
        · exact List.mem_cons.mpr (Or.inr (ih.mp ht))
      · intro hm
        rcases List.mem_cons.mp hm with he | ht
        · rw [Prod.mk.injEq] at he
          rcases he with ⟨h1, h2⟩
          rw [SelData.client.injEq] at h2
          exact List.mem_cons.mpr (Or.inl (by rw [h1, h2]))
        · exact List.mem_cons.mpr (Or.inr (ih.mpr ht))

theorem clientRegs_filter_key (p : Nat → Bool) (l : List (Nat × SelData)) :
    clientRegs (l.filter fun r => p r.1)
      = (clientRegs l).filter fun q => p q.1 := by
  induction l with
  | nil => rfl
  | cons h t ih =>
    obtain ⟨fd, d⟩ := h
    by_cases hp : p fd
    · cases d <;>
        simp [List.filter_cons, hp, clientRegs_cons_server,
          clientRegs_cons_ctrl, clientRegs_cons_client, ih]
    · cases d <;>
        simp [List.filter_cons, hp, clientRegs_cons_server,
          clientRegs_cons_ctrl, clientRegs_cons_client, ih]

theorem clientRegs_fst_sublist (l : List (Nat × SelData)) :
    ((clientRegs l).map Prod.fst).Sublist (l.map Prod.fst) := by
  induction l with
  | nil => simp [clientRegs_nil]
  | cons h t ih =>
    obtain ⟨fd, d⟩ := h
    cases d with
    | server =>
      rw [clientRegs_cons_server, List.map_cons]
      exact ih.cons fd
    | ctrlRx =>
      rw [clientRegs_cons_ctrl, List.map_cons]
      exact ih.cons fd
    | client c =>
      rw [clientRegs_cons_client, List.map_cons, List.map_cons]
      exact ih.cons₂ fd

theorem clientRegs_fst_nodup {l : List (Nat × SelData)}
    (hnd : (l.map Prod.fst).Nodup) : ((clientRegs l).map Prod.fst).Nodup :=
  (clientRegs_fst_sublist l).nodup hnd

/-!
## Lemmas about `removeAll` (the removal loops of `expire` and
`_remove_invalid_sockets`)
-/

theorem removeAll_nil (s : CMState) : removeAll [] s = s := rfl

theorem removeAll_cons (p : Nat × Conn) (ps : List (Nat × Conn))
    (s : CMState) : removeAll (p :: ps) s = removeAll ps (removeConn s p.1 p.2) :=
  rfl

theorem removeAll_selector (ps : List (Nat × Conn)) (s : CMState) :
    (removeAll ps s).selector
      = s.selector.filter fun r => decide (r.1 ∉ ps.map Prod.fst) := by
  induction ps generalizing s with
  | nil => simp [removeAll_nil]
  | cons p ps ih =>
    rw [removeAll_cons, ih]
    show ((s.selector.filter fun r => r.1 != p.1).filter _) = _
    rw [List.filter_filter]
    apply List.filter_congr
    intro r _
    by_cases h1 : r.1 = p.1 <;>
      by_cases h2 : r.1 ∈ ps.map Prod.fst <;>
        simp [List.mem_cons, h1, h2, bne]

theorem removeAll_num (ps : List (Nat × Conn)) (s : CMState) :
    (removeAll ps s).num_conns = s.num_conns - ps.length := by
  induction ps generalizing s with
  | nil => simp [removeAll_nil]
  | cons p ps ih =>
    rw [removeAll_cons, ih]
    simp only [removeConn, List.length_cons]
    push_cast
    ring

theorem removeAll_closed (ps : List (Nat × Conn)) (s : CMState) :
    (removeAll ps s).closed_log = s.closed_log ++ ps.map Prod.snd := by
  induction ps generalizing s with
  | nil => simp [removeAll_nil]
  | cons p ps ih =>
    rw [removeAll_cons, ih]
    simp [removeConn, List.append_assoc]

theorem removeAll_readable (ps : List (Nat × Conn)) (s : CMState) :
    (removeAll ps s).readable_conns = s.readable_conns := by
  induction ps generalizing s with
  | nil => rfl
  | cons p ps ih => rw [removeAll_cons, ih]; rfl

theorem removeAll_put_q (ps : List (Nat × Conn)) (s : CMState) :
    (removeAll ps s).put_q = s.put_q := by
  induction ps generalizing s with
  | nil => rfl
  | cons p ps ih => rw [removeAll_cons, ih]; rfl

theorem removeAll_ctrl_bytes (ps : List (Nat × Conn)) (s : CMState) :
    (removeAll ps s).ctrl_bytes = s.ctrl_bytes := by
  induction ps generalizing s with
  | nil => rfl
  | cons p ps ih => rw [removeAll_cons, ih]; rfl

theorem mem_filter_key_iff (pred : Nat × Conn → Bool)
    (L : List (Nat × Conn)) (hnd : (L.map Prod.fst).Nodup)
    {q : Nat × Conn} (hq : q ∈ L) :
    q.1 ∈ (L.filter pred).map Prod.fst ↔ pred q = true := by
  constructor
  · intro hmem
    obtain ⟨q2, hq2, he⟩ := List.mem_map.mp hmem
    have hq2L := List.mem_filter.mp hq2
    have heq : q = q2 := key_inj L hnd q q2 hq hq2L.1 he.symm
    rw [heq]
    exact hq2L.2
  · intro hpred
    exact List.mem_map_of_mem Prod.fst (List.mem_filter.mpr ⟨hq, hpred⟩)

theorem clientRegs_removeAll_filter (pred : Nat × Conn → Bool) (s : CMState)
    (hnd : (s.selector.map Prod.fst).Nodup) :
    clientRegs ((removeAll ((clientRegs s.selector).filter pred) s).selector)
      = (clientRegs s.selector).filter fun q => !(pred q) := by
  rw [removeAll_selector,
    clientRegs_filter_key
      (fun x => decide
        (x ∉ ((clientRegs s.selector).filter pred).map Prod.fst))
      s.selector]
  apply List.filter_congr
  intro q hq
  have hiff := mem_filter_key_iff pred (clientRegs s.selector)
    (clientRegs_fst_nodup hnd) hq
  cases hpred : pred q
  · simp [hiff, hpred]
  · simp [hiff, hpred]

theorem filter_length_partition {α : Type} (p : α → Bool) (l : List α) :
    (l.filter p).length + (l.filter fun a => !(p a)).length = l.length := by
  induction l with
  | nil => rfl
  | cons a t ih => cases h : p a <;> simp [List.filter_cons, h] <;> omega

theorem selClients_length (s : CMState) :
    (selClients s).length = (clientRegs s.selector).length := by
  simp [selClients, getSelectorConns]

theorem removeAll_filter_countInv (pred : Nat × Conn → Bool) (s : CMState)
    (hnd : (s.selector.map Prod.fst).Nodup) (hinv : countInv s) :
    countInv (removeAll ((clientRegs s.selector).filter pred) s) := by
  unfold countInv at *
  rw [removeAll_num, removeAll_readable, removeAll_put_q, selClients_length,
    clientRegs_removeAll_filter pred s hnd]
  rw [selClients_length] at hinv
  have hpart := filter_length_partition pred (clientRegs s.selector)
  omega

theorem expire_eq (cfg : ServerCfg) (s : CMState) (now : Int) :
    expire cfg s now
      = removeAll ((clientRegs s.selector).filter
          fun p => decide (p.2.last_used < now - cfg.timeout)) s := rfl

theorem removeInvalidSockets_eq (s : CMState) (validFd : Nat → Bool) :
    removeInvalidSockets s validFd
      = removeAll ((clientRegs s.selector).filter fun p => !validFd p.1) s := rfl

/-!
## Equation lemmas for the operations
-/

theorem put_has_data_eq {conn : Conn} (s : CMState) (now : Int)
    (h : conn.rfile_has_data = true) :
    put s conn now
      = { s with
            num_conns := s.num_conns + 1
            readable_conns :=
              s.readable_conns ++ [{ conn with last_used := now }] } := by
  simp [put, h]

theorem put_no_data_eq {conn : Conn} (s : CMState) (now : Int)
    (h : conn.rfile_has_data = false) :
    put s conn now
      = { s with
            num_conns := s.num_conns + 1
            put_q := s.put_q ++ [{ conn with last_used := now }]
            ctrl_bytes := s.ctrl_bytes + 1 } := by
  simp [put, h]

theorem popReadableConn_nil {s : CMState} (h : s.readable_conns = []) :
    popReadableConn s = none := by
  unfold popReadableConn
  rw [h]

theorem popReadableConn_cons {s : CMState} {c : Conn} {rest : List Conn}
    (h : s.readable_conns = c :: rest) :
    popReadableConn s
      = some (c, { s with readable_conns := rest,
                          num_conns := s.num_conns - 1 }) := by
  unfold popReadableConn
  rw [h]

theorem processCtrlMsg_nil {s : CMState} (h : s.put_q = []) :
    processCtrlMsg s = ({ s with ctrl_bytes := s.ctrl_bytes - 1 }, true) := by
  unfold processCtrlMsg
  rw [h]

theorem processCtrlMsg_cons {s : CMState} {c : Conn} {rest : List Conn}
    (h : s.put_q = c :: rest) :
    processCtrlMsg s
      = ({ s with
            ctrl_bytes := s.ctrl_bytes - 1
            put_q := rest
            selector := s.selector ++ [(c.fd, SelData.client c)] }, false) := by
  unfold processCtrlMsg
  rw [h]

theorem getConnLoop_nil (accept : Except Nat (Option Conn)) (s : CMState) :
    getConnLoop accept s []
      = match popReadableConn s with
        | some (c, s2) => ⟨s2, some c, none, true⟩
        | none => ⟨s, none, none, true⟩ := rfl

theorem getConnLoop_cons_ctrl (accept : Except Nat (Option Conn))
    (s : CMState) (fd : Nat) (rest : List (Nat × SelData)) :
    getConnLoop accept s ((fd, SelData.ctrlRx) :: rest)
      = match processCtrlMsg s with
        | (s2, true) => ⟨s2, none, some GetErr.ctrlIndexError, true⟩
        | (s2, false) => getConnLoop accept s2 rest := rfl

theorem getConnLoop_cons_server (accept : Except Nat (Option Conn))
    (s : CMState) (fd : Nat) (rest : List (Nat × SelData)) :
    getConnLoop accept s ((fd, SelData.server) :: rest)
      = match accept with
        | Except.error code => ⟨s, none, some (GetErr.sockErr code), true⟩
        | Except.ok c => ⟨s, c, none, true⟩ := rfl

theorem getConnLoop_cons_client (accept : Except Nat (Option Conn))
    (s : CMState) (fd : Nat) (c : Conn) (rest : List (Nat × SelData)) :
    getConnLoop accept s ((fd, SelData.client c) :: rest)
      = getConnLoop accept
          { s with
              selector := s.selector.filter fun r => r.1 != fd
              readable_conns := s.readable_conns ++ [c] } rest := rfl

theorem getConn_readable {s : CMState} {c : Conn} {rest : List Conn}
    (h : s.readable_conns = c :: rest) (sel : SelectOutcome)
    (accept : Except Nat (Option Conn)) :
    getConn s sel accept
      = ⟨{ s with readable_conns := rest, num_conns := s.num_conns - 1 },
         some c, none, false⟩ := by
  unfold getConn
  rw [popReadableConn_cons h]

theorem getConn_empty_oserror {s : CMState} (h : s.readable_conns = [])
    (validFd : Nat → Bool) (accept : Except Nat (Option Conn)) :
    getConn s (SelectOutcome.oserror validFd) accept
      = ⟨removeInvalidSockets s validFd, none, none, true⟩ := by
  unfold getConn
  rw [popReadableConn_nil h]

theorem getConn_empty_ready {s : CMState} (h : s.readable_conns = [])
    (rlist : List (Nat × SelData)) (accept : Except Nat (Option Conn)) :
    getConn s (SelectOutcome.ready rlist) accept
      = getConnLoop accept s rlist := by
  unfold getConn
  rw [popReadableConn_nil h]

/-!
## Preservation of the counted-placements invariant, operation by operation
-/

theorem put_countInv (s : CMState) (conn : Conn) (now : Int)
    (h : countInv s) : countInv (put s conn now) := by
  unfold countInv at h ⊢
  cases hd : conn.rfile_has_data
  · rw [put_no_data_eq s now hd]
    simp only [selClients, getSelectorConns, List.length_map,
      List.length_append, List.length_cons, List.length_nil] at h ⊢
    omega
  · rw [put_has_data_eq s now hd]
    simp only [selClients, getSelectorConns, List.length_map,
      List.length_append, List.length_cons, List.length_nil] at h ⊢
    omega

theorem popReadableConn_countInv {s s2 : CMState} {c : Conn}
    (h : countInv s) (hp : popReadableConn s = some (c, s2)) :
    countInv s2 := by
  cases hr : s.readable_conns with
  | nil => rw [popReadableConn_nil hr] at hp; cases hp
  | cons c0 rest =>
    rw [popReadableConn_cons hr] at hp
    injection hp with h3
    injection h3 with h4 h5
    rw [← h5]
    unfold countInv at h ⊢
    rw [hr] at h
    simp only [selClients, getSelectorConns, List.length_map,
      List.length_cons] at h ⊢
    omega

theorem removeConn_countInv {s : CMState} {fd : Nat} {c : Conn}
    (hnd : (s.selector.map Prod.fst).Nodup)
    (hmem : (fd, SelData.client c) ∈ s.selector)
    (h : countInv s) : countInv (removeConn s fd c) := by
  unfold countInv at h ⊢
  simp only [removeConn, selClients, getSelectorConns, List.length_map] at h ⊢
  rw [clientRegs_filter_key (fun x => x != fd) s.selector]
  have hlen := length_filter_ne_key fd c (clientRegs s.selector)
    (clientRegs_fst_nodup hnd) (mem_clientRegs.mpr hmem)
  omega

theorem processCtrlMsg_countInv {s : CMState} (h : countInv s) :
    countInv (processCtrlMsg s).1 := by
  cases hq : s.put_q with
  | nil =>
    rw [processCtrlMsg_nil hq]
    unfold countInv at h ⊢
    simpa using h
  | cons c rest =>
    rw [processCtrlMsg_cons hq]
    unfold countInv at h ⊢
    rw [hq] at h
    simp only [selClients, getSelectorConns, List.length_map,
      List.length_cons, clientRegs_append, clientRegs_cons_client,
      clientRegs_nil, List.length_append, List.length_nil] at h ⊢
    omega

theorem getConnLoop_countInv (accept : Except Nat (Option Conn)) :
    ∀ (rlist : List (Nat × SelData)) (s : CMState),
      countInv s →
      (s.selector.map Prod.fst).Nodup →
      (rlist.map Prod.fst).Nodup →
      (∀ fd c, (fd, SelData.client c) ∈ rlist →
        (fd, SelData.client c) ∈ s.selector) →
      (s.put_q.map Conn.fd).Nodup →
      (∀ c ∈ s.put_q,
        c.fd ∉ s.selector.map Prod.fst ∧ c.fd ∉ rlist.map Prod.fst) →
      countInv (getConnLoop accept s rlist).st := by
  intro rlist
  induction rlist with
  | nil =>
    intro s hinv _ _ _ _ _
    rw [getConnLoop_nil]
    cases hr : s.readable_conns with
    | nil =>
      rw [popReadableConn_nil hr]
      exact hinv
    | cons c rest =>
      rw [popReadableConn_cons hr]
      exact popReadableConn_countInv hinv (popReadableConn_cons hr)
  | cons e rest ih =>
    intro s hinv hndSel hndR hcl hndQ hput
    obtain ⟨fd, d⟩ := e
    rw [List.map_cons, List.nodup_cons] at hndR
    cases d with
    | server =>
      rw [getConnLoop_cons_server]
      cases accept with
      | error code => exact hinv
      | ok c => exact hinv
    | ctrlRx =>
      rw [getConnLoop_cons_ctrl]
      cases hq : s.put_q with
      | nil =>
        rw [processCtrlMsg_nil hq]
        exact hinv
      | cons c crest =>
        rw [processCtrlMsg_cons hq]
        refine ih
          { s with
              ctrl_bytes := s.ctrl_bytes - 1
              put_q := crest
              selector := s.selector ++ [(c.fd, SelData.client c)] }
          ?_ ?_ ?_ ?_ ?_ ?_
        · have hthis := processCtrlMsg_countInv hinv
          rw [processCtrlMsg_cons hq] at hthis
          exact hthis
        · simp only [List.map_append, List.map_cons, List.map_nil]
          rw [List.nodup_append]
          refine ⟨hndSel, List.nodup_singleton _, ?_⟩
          intro x hx hx2
          have hc := hput c (by rw [hq]; exact List.mem_cons_self c crest)
          simp only [List.mem_singleton] at hx2
          rw [hx2] at hx
          exact hc.1 hx
        · exact hndR.2
        · intro fd2 c2 hm
          exact List.mem_append_left _ (hcl fd2 c2 (List.mem_cons_of_mem _ hm))
        · rw [hq, List.map_cons, List.nodup_cons] at hndQ
          exact hndQ.2
        · intro c2 hc2
          have hmemq : c2 ∈ s.put_q := by
            rw [hq]; exact List.mem_cons_of_mem _ hc2
          have hor := hput c2 hmemq
          constructor
          · simp only [List.map_append, List.map_cons, List.map_nil]
            rw [List.mem_append]
            rintro (hx | hx)
            · exact hor.1 hx
            · simp only [List.mem_singleton] at hx
              rw [hq, List.map_cons, List.nodup_cons] at hndQ
              exact hndQ.1 (hx ▸ List.mem_map_of_mem Conn.fd hc2)
          · exact fun hx => hor.2 (List.mem_cons_of_mem _ hx)
    | client c =>
      rw [getConnLoop_cons_client]
      refine ih
        { s with
            selector := s.selector.filter fun r => r.1 != fd
            readable_conns := s.readable_conns ++ [c] }
        ?_ ?_ ?_ ?_ ?_ ?_
      · have hmem : (fd, SelData.client c) ∈ s.selector :=
          hcl fd c (List.mem_cons_self _ _)
        unfold countInv at hinv ⊢
        simp only [selClients, getSelectorConns, List.length_map,
          List.length_append, List.length_cons, List.length_nil] at hinv ⊢
        rw [clientRegs_filter_key (fun x => x != fd) s.selector]
        have hlen := length_filter_ne_key fd c (clientRegs s.selector)
          (clientRegs_fst_nodup hndSel) (mem_clientRegs.mpr hmem)
        omega
      · exact (((List.filter_sublist _).map Prod.fst).nodup) hndSel
      · exact hndR.2
      · intro fd2 c2 hm
        have hm2 : (fd2, SelData.client c2) ∈ s.selector :=
          hcl fd2 c2 (List.mem_cons_of_mem _ hm)
        have hne : fd2 ≠ fd := by
          intro he
          have hmm : fd2 ∈ rest.map Prod.fst :=
            List.mem_map_of_mem Prod.fst hm
          rw [he] at hmm
          exact hndR.1 hmm
        exact mem_filter_ne_key hm2 hne
      · exact hndQ
      · intro c2 hc2
        have hor := hput c2 hc2
        constructor
        · intro hx
          have hin : c2.fd ∈ s.selector.map Prod.fst := by
            obtain ⟨r, hr, he⟩ := List.mem_map.mp hx
            exact he ▸ List.mem_map_of_mem Prod.fst (List.mem_filter.mp hr).1
          exact hor.1 hin
        · exact fun hx => hor.2 (List.mem_cons_of_mem _ hx)

/-!
## Claim theorems
-/

/-- C2: `put(conn)` increments the live count by exactly one, stamps the
connection's `last_used` to the current time, never touches the selector
registration table, and: with buffered input data appends the connection
to the readable queue sending no control byte; without buffered data
appends it to the pending-put queue and sends exactly one control byte. -/
theorem c2_put_behavior (s : CMState) (conn : Conn) (now : Int) :
    (put s conn now).num_conns = s.num_conns + 1 ∧
    (put s conn now).selector = s.selector ∧
    (conn.rfile_has_data = true →
      (put s conn now).readable_conns
          = s.readable_conns ++ [{ conn with last_used := now }] ∧
      (put s conn now).put_q = s.put_q ∧
      (put s conn now).ctrl_bytes = s.ctrl_bytes) ∧
    (conn.rfile_has_data = false →
      (put s conn now).put_q
          = s.put_q ++ [{ conn with last_used := now }] ∧
      (put s conn now).readable_conns = s.readable_conns ∧
      (put s conn now).ctrl_bytes = s.ctrl_bytes + 1) := by
  refine ⟨?_, ?_, fun h => ?_, fun h => ?_⟩
  · cases hd : conn.rfile_has_data
    · rw [put_no_data_eq s now hd]
    · rw [put_has_data_eq s now hd]
  · cases hd : conn.rfile_has_data
    · rw [put_no_data_eq s now hd]
    · rw [put_has_data_eq s now hd]
  · rw [put_has_data_eq s now h]
    exact ⟨rfl, rfl, rfl⟩
  · rw [put_no_data_eq s now h]
    exact ⟨rfl, rfl, rfl⟩

/-- Witness for C2 at concrete inputs: one `put` of a connection with
buffered data, one of a connection without. -/
theorem c2_put_behavior_witness :
    (put exEmpty connBuf 7).readable_conns
        = [{ connBuf with last_used := 7 }] ∧
    (put exEmpty connBuf 7).ctrl_bytes = exEmpty.ctrl_bytes ∧
    (put exEmpty connPlain 7).put_q
        = [{ connPlain with last_used := 7 }] ∧
    (put exEmpty connPlain 7).ctrl_bytes = exEmpty.ctrl_bytes + 1 ∧
    (put exEmpty connPlain 7).selector = exEmpty.selector := by
  have h1 := (c2_put_behavior exEmpty connBuf 7).2.2.1 (by decide)
  have h2 := (c2_put_behavior exEmpty connPlain 7).2.2.2 (by decide)
  have h3 := (c2_put_behavior exEmpty connPlain 7).2.1
  exact ⟨h1.1, h1.2.2, h2.1, h2.2.2, h3⟩

/-- C4: `can_add_keepalive_connection` is true iff no cap is configured
or the live count is strictly below the cap; with cap N it is true for
count < N and false once count = N; with no cap it is always true. -/
theorem c4_keepalive_admission (cfg : ServerCfg) (s : CMState) :
    (canAddKeepaliveConnection cfg s = true
        ↔ ∀ N, cfg.keep_alive_conn_limit = some N → s.num_conns < N) ∧
    (cfg.keep_alive_conn_limit = none →
      canAddKeepaliveConnection cfg s = true) ∧
    (∀ N, cfg.keep_alive_conn_limit = some N →
      (s.num_conns < N → canAddKeepaliveConnection cfg s = true) ∧
      (s.num_conns = N → canAddKeepaliveConnection cfg s = false)) := by
  refine ⟨?_, ?_, ?_⟩
  · cases hl : cfg.keep_alive_conn_limit with
    | none => simp [canAddKeepaliveConnection, hl]
    | some M =>
      simp only [canAddKeepaliveConnection, hl]
      constructor
      · intro h N hN
        rw [Option.some.injEq] at hN
        subst hN
        exact of_decide_eq_true h
      · intro h
        exact decide_eq_true (h M rfl)
  · intro hl
    simp [canAddKeepaliveConnection, hl]
  · intro N hN
    constructor
    · intro h
      simp [canAddKeepaliveConnection, hN, h]
    · intro h
      simp [canAddKeepaliveConnection, hN, h]

/-- Witness for C4 at concrete inputs: cap 2 with one live connection
(admission allowed) and with two live connections (admission denied),
and no cap with two live connections (always allowed). -/
theorem c4_keepalive_admission_witness :
    canAddKeepaliveConnection cfgEx exOneClient = true ∧
    canAddKeepaliveConnection cfgEx exTwoClients = false ∧
    canAddKeepaliveConnection
      { cfgEx with keep_alive_conn_limit := none } exTwoClients = true := by
  refine ⟨?_, ?_, ?_⟩
  · exact ((c4_keepalive_admission cfgEx exOneClient).2.2 2 (by decide)).1
      (by decide)
  · exact ((c4_keepalive_admission cfgEx exTwoClients).2.2 2 (by decide)).2
      (by decide)
  · exact (c4_keepalive_admission
      { cfgEx with keep_alive_conn_limit := none } exTwoClients).2.1 rfl

/-- C5: for a connection with buffered input data, `put` followed by
`get_conn` (readable queue otherwise empty) returns that connection with
no selector wait at all — for every select outcome and accept outcome —
and the put/get round trip leaves the live count net unchanged. -/
theorem c5_buffered_bypass (s : CMState) (conn : Conn) (now : Int)
    (hbuf : conn.rfile_has_data = true) (hempty : s.readable_conns = [])
    (sel : SelectOutcome) (accept : Except Nat (Option Conn)) :
    (getConn (put s conn now) sel accept).ret
        = some { conn with last_used := now } ∧
    (getConn (put s conn now) sel accept).waited = false ∧
    (getConn (put s conn now) sel accept).st.num_conns = s.num_conns := by
  have hr : (put s conn now).readable_conns
      = { conn with last_used := now } :: [] := by
    rw [put_has_data_eq s now hbuf]
    simp [hempty]
  rw [getConn_readable hr sel accept]
  refine ⟨rfl, rfl, ?_⟩
  show (put s conn now).num_conns - 1 = s.num_conns
  rw [put_has_data_eq s now hbuf]
  show s.num_conns + 1 - 1 = s.num_conns
  omega

/-- Witness for C5 at a concrete input: the pipelined connection comes
straight back out of the empty manager, without waiting, even when the
injected select outcome would be an `OSError`. -/
theorem c5_buffered_bypass_witness :
    (getConn (put exEmpty connBuf 7)
        (SelectOutcome.oserror fun _ => true) (Except.ok none)).ret
      = some { connBuf with last_used := 7 } ∧
    (getConn (put exEmpty connBuf 7)
        (SelectOutcome.oserror fun _ => true) (Except.ok none)).waited
      = false ∧
    (getConn (put exEmpty connBuf 7)
        (SelectOutcome.oserror fun _ => true) (Except.ok none)).st.num_conns
      = exEmpty.num_conns :=
  c5_buffered_bypass exEmpty connBuf 7 (by decide) (by decide)
    (SelectOutcome.oserror fun _ => true) (Except.ok none)

/-- C10: `close()` closes exactly the readable-queue connections and the
selector-registered client connections and clears the readable queue;
the pending-put queue is left in place and its connections unclosed, and
the live count `_num_conns` is unchanged. -/
theorem c10_close_frame (s : CMState) :
    (close s).put_q = s.put_q ∧
    (close s).num_conns = s.num_conns ∧
    (close s).readable_conns = [] ∧
    (close s).closed_log
        = (s.closed_log ++ s.readable_conns) ++ selClients s ∧
    (close s).ctrl_bytes = s.ctrl_bytes ∧
    (∀ c, c ∈ s.put_q → c ∉ s.readable_conns → c ∉ selClients s →
      c ∉ s.closed_log → c ∉ (close s).closed_log) := by
  refine ⟨rfl, rfl, rfl, rfl, rfl, ?_⟩
  intro c _ hr hs hl hmem
  have hmem2 : c ∈ (s.closed_log ++ s.readable_conns) ++ selClients s := hmem
  rcases List.mem_append.mp hmem2 with hm | hm
  · rcases List.mem_append.mp hm with hm2 | hm2
    · exact hl hm2
    · exact hr hm2
  · exact hs hm

/-- Witness for C10 at a concrete input: closing a manager that has one
pending-put connection closes nothing from the pending-put queue. -/
theorem c10_close_frame_witness :
    (close exPending).put_q = exPending.put_q ∧
    (close exPending).num_conns = exPending.num_conns ∧
    connPlain ∉ (close exPending).closed_log := by
  have h := c10_close_frame exPending
  exact ⟨h.1, h.2.1,
    h.2.2.2.2.2 connPlain (by decide) (by decide) (by decide) (by decide)⟩

/-- C9: the number of undrained control bytes always equals the length
of the pending-put queue: `put` of a connection without buffered data
appends one queue entry and sends exactly one byte (with buffered data
it does neither); processing one control readiness event drains exactly
one byte and moves exactly the FIFO-first pending connection into the
selector registration table; consequently, under the invariant, the
`popleft` in `_process_ctrl_msg` never finds the queue empty. -/
theorem c9_ctrl_discipline :
    (∀ (s : CMState) (conn : Conn) (now : Int),
      ctrlInv s → ctrlInv (put s conn now)) ∧
    (∀ (s : CMState) (conn : Conn) (now : Int),
      conn.rfile_has_data = false →
      (put s conn now).ctrl_bytes = s.ctrl_bytes + 1 ∧
      (put s conn now).put_q = s.put_q ++ [{ conn with last_used := now }]) ∧
    (∀ (s : CMState) (conn : Conn) (now : Int),
      conn.rfile_has_data = true →
      (put s conn now).ctrl_bytes = s.ctrl_bytes ∧
      (put s conn now).put_q = s.put_q) ∧
    (∀ s : CMState, ctrlInv s → 0 < s.ctrl_bytes →
      (processCtrlMsg s).2 = false ∧
      s.put_q ≠ [] ∧
      (processCtrlMsg s).1.ctrl_bytes = s.ctrl_bytes - 1 ∧
      ctrlInv (processCtrlMsg s).1 ∧
      (∀ (c : Conn) (rest : List Conn), s.put_q = c :: rest →
        (processCtrlMsg s).1.put_q = rest ∧
        (processCtrlMsg s).1.selector
            = s.selector ++ [(c.fd, SelData.client c)])) := by
  refine ⟨?_, ?_, ?_, ?_⟩
  · intro s conn now h
    unfold ctrlInv at h ⊢
    cases hd : conn.rfile_has_data
    · rw [put_no_data_eq s now hd]
      show s.ctrl_bytes + 1 = (s.put_q ++ [{ conn with last_used := now }]).length
      rw [List.length_append, h]
      rfl
    · rw [put_has_data_eq s now hd]
      exact h
  · intro s conn now hd
    rw [put_no_data_eq s now hd]
    exact ⟨rfl, rfl⟩
  · intro s conn now hd
    rw [put_has_data_eq s now hd]
    exact ⟨rfl, rfl⟩
  · intro s hinv hpos
    unfold ctrlInv at hinv
    cases hq : s.put_q with
    | nil =>
      exfalso
      rw [hq] at hinv
      simp only [List.length_nil] at hinv
      omega
    | cons c rest =>
      rw [processCtrlMsg_cons hq]
      refine ⟨rfl, List.cons_ne_nil c rest, rfl, ?_, ?_⟩
      · unfold ctrlInv
        show s.ctrl_bytes - 1 = rest.length
        rw [hq, List.length_cons] at hinv
        omega
      · intro c2 rest2 hq2
        injection hq2 with h1 h2
        subst h1
        subst h2
        exact ⟨rfl, rfl⟩

/-- Witness for C9 at concrete inputs: a `put` keeps byte count and
queue length in sync, and a control readiness event on a one-pending
manager drains the byte, pops the single queue entry and registers it. -/
theorem c9_ctrl_discipline_witness :
    ctrlInv (put exEmpty connPlain 7) ∧
    (processCtrlMsg exPending).2 = false ∧
    (processCtrlMsg exPending).1.put_q = [] ∧
    ctrlInv (processCtrlMsg exPending).1 := by
  have h1 := c9_ctrl_discipline.1 exEmpty connPlain 7 (by decide)
  have h4 := c9_ctrl_discipline.2.2.2 exPending (by decide) (by decide)
  exact ⟨h1, h4.1, (h4.2.2.2.2 connPlain [] (by decide)).1, h4.2.2.2.1⟩

/-- C1: at every quiescent point `_num_conns` equals |readable queue| +
|pending-put queue| + |selector client registrations|, and each
operation — `put`, `_pop_readable_conn`, `_remove_conn`,
`_process_ctrl_msg`, `expire`, `_remove_invalid_sockets`, and `get_conn`
in both select-outcome branches — preserves this equality.  The side
conditions state the selector/OS facts the code relies on: a file
descriptor is registered at most once, pending-put connections hold fds
not currently registered, and the ready list returned by the select call
consists of distinct registered keys. -/
theorem c1_count_invariant :
    (∀ (s : CMState) (conn : Conn) (now : Int),
      countInv s → countInv (put s conn now)) ∧
    (∀ (s s2 : CMState) (c : Conn), countInv s →
      popReadableConn s = some (c, s2) → countInv s2) ∧
    (∀ (s : CMState) (fd : Nat) (c : Conn), countInv s →
      (s.selector.map Prod.fst).Nodup →
      (fd, SelData.client c) ∈ s.selector →
      countInv (removeConn s fd c)) ∧
    (∀ s : CMState, countInv s → countInv (processCtrlMsg s).1) ∧
    (∀ (cfg : ServerCfg) (s : CMState) (now : Int), countInv s →
      (s.selector.map Prod.fst).Nodup → countInv (expire cfg s now)) ∧
    (∀ (s : CMState) (validFd : Nat → Bool), countInv s →
      (s.selector.map Prod.fst).Nodup →
      countInv (removeInvalidSockets s validFd)) ∧
    (∀ (s : CMState) (validFd : Nat → Bool)
        (accept : Except Nat (Option Conn)), countInv s →
      (s.selector.map Prod.fst).Nodup →
      countInv (getConn s (SelectOutcome.oserror validFd) accept).st) ∧
    (∀ (s : CMState) (rlist : List (Nat × SelData))
        (accept : Except Nat (Option Conn)), countInv s →
      (s.selector.map Prod.fst).Nodup →
      (rlist.map Prod.fst).Nodup →
      (∀ fd c, (fd, SelData.client c) ∈ rlist →
        (fd, SelData.client c) ∈ s.selector) →
      (s.put_q.map Conn.fd).Nodup →
      (∀ c ∈ s.put_q,
        c.fd ∉ s.selector.map Prod.fst ∧ c.fd ∉ rlist.map Prod.fst) →
      countInv (getConn s (SelectOutcome.ready rlist) accept).st) := by
  refine ⟨fun s conn now h => put_countInv s conn now h,
    fun s s2 c h hp => popReadableConn_countInv h hp,
    fun s fd c h hnd hm => removeConn_countInv hnd hm h,
    fun s h => processCtrlMsg_countInv h, ?_, ?_, ?_, ?_⟩
  · intro cfg s now h hnd
    rw [expire_eq]
    exact removeAll_filter_countInv _ s hnd h
  · intro s validFd h hnd
    rw [removeInvalidSockets_eq]
    exact removeAll_filter_countInv _ s hnd h
  · intro s validFd accept h hnd
    cases hr : s.readable_conns with
    | cons c rest =>
      rw [getConn_readable hr (SelectOutcome.oserror validFd) accept]
      exact popReadableConn_countInv h (popReadableConn_cons hr)
    | nil =>
      rw [getConn_empty_oserror hr validFd accept]
      show countInv (removeInvalidSockets s validFd)
      rw [removeInvalidSockets_eq]
      exact removeAll_filter_countInv _ s hnd h
  · intro s rlist accept h hndSel hndR hcl hndQ hput
    cases hr : s.readable_conns with
    | cons c rest =>
      rw [getConn_readable hr (SelectOutcome.ready rlist) accept]
      exact popReadableConn_countInv h (popReadableConn_cons hr)
    | nil =>
      rw [getConn_empty_ready hr rlist accept]
      exact getConnLoop_countInv accept rlist s h hndSel hndR hcl hndQ hput

/-- Witness for C1 at concrete inputs: the invariant holds on a manager
with two registered clients and is preserved by a `put`, by an `expire`
that evicts one of them, and by a control-message registration. -/
theorem c1_count_invariant_witness :
    countInv exTwoClients ∧
    countInv (put exTwoClients connBuf 7) ∧
    countInv (expire cfgEx exTwoClients 100) ∧
    countInv (processCtrlMsg exPending).1 := by
  refine ⟨by decide,
    c1_count_invariant.1 exTwoClients connBuf 7 (by decide),
    c1_count_invariant.2.2.2.2.1 cfgEx exTwoClients 100 (by decide)
      (by decide),
    c1_count_invariant.2.2.2.1 exPending (by decide)⟩

/-- C3: `expire()` evicts a selector-registered client connection iff
its `last_used` timestamp is strictly below `now - timeout` (a
connection exactly at the boundary survives); every evicted connection
is unregistered, closed, and accounts for exactly one decrement of
`_num_conns`; the listening socket and control channel registrations are
never candidates.  The Nodup hypothesis is the selector's one
registration per fd invariant. -/
theorem c3_expire_eviction (cfg : ServerCfg) (s : CMState) (now : Int)
    (hnd : (s.selector.map Prod.fst).Nodup) :
    (∀ fd c, (fd, SelData.client c) ∈ s.selector →
      ¬(c.last_used < now - cfg.timeout) →
      (fd, SelData.client c) ∈ (expire cfg s now).selector) ∧
    (∀ fd c, (fd, SelData.client c) ∈ s.selector →
      c.last_used < now - cfg.timeout →
      fd ∉ (expire cfg s now).selector.map Prod.fst) ∧
    ((expire cfg s now).closed_log
        = s.closed_log
          ++ ((clientRegs s.selector).filter
              (fun p => decide (p.2.last_used < now - cfg.timeout))).map
            Prod.snd) ∧
    ((expire cfg s now).num_conns
        = s.num_conns
          - ((clientRegs s.selector).filter
              (fun p => decide (p.2.last_used < now - cfg.timeout))).length) ∧
    (∀ fd, (fd, SelData.server) ∈ s.selector →
      (fd, SelData.server) ∈ (expire cfg s now).selector) ∧
    (∀ fd, (fd, SelData.ctrlRx) ∈ s.selector →
      (fd, SelData.ctrlRx) ∈ (expire cfg s now).selector) := by
  refine ⟨?_, ?_, ?_, ?_, ?_, ?_⟩
  · intro fd c hm hnot
    rw [expire_eq, removeAll_selector]
    apply List.mem_filter.mpr
    refine ⟨hm, ?_⟩
    rw [decide_eq_true_eq]
    intro hin
    obtain ⟨q, hqmem, hq1⟩ := List.mem_map.mp hin
    have hqL := List.mem_filter.mp hqmem
    have heq : (fd, c) = q :=
      key_inj (clientRegs s.selector) (clientRegs_fst_nodup hnd) (fd, c) q
        (mem_clientRegs.mpr hm) hqL.1 hq1.symm
    rw [← heq] at hqL
    exact hnot (of_decide_eq_true hqL.2)
  · intro fd c hm hold
    rw [expire_eq, removeAll_selector]
    intro hin
    obtain ⟨r, hr, hr1⟩ := List.mem_map.mp hin
    have hnotin := of_decide_eq_true (List.mem_filter.mp hr).2
    apply hnotin
    rw [hr1]
    exact List.mem_map_of_mem Prod.fst
      (List.mem_filter.mpr ⟨mem_clientRegs.mpr hm, decide_eq_true hold⟩)
  · rw [expire_eq, removeAll_closed]
  · rw [expire_eq, removeAll_num]
  · intro fd hm
    rw [expire_eq, removeAll_selector]
    apply List.mem_filter.mpr
    refine ⟨hm, ?_⟩
    rw [decide_eq_true_eq]
    intro hin
    obtain ⟨q, hqmem, hq1⟩ := List.mem_map.mp hin
    have hqL := (List.mem_filter.mp hqmem).1
    have hqSel : (q.1, SelData.client q.2) ∈ s.selector := mem_clientRegs.mp hqL
    have heq : (fd, SelData.server) = (q.1, SelData.client q.2) :=
      key_inj s.selector hnd _ _ hm hqSel hq1.symm
    exact SelData.noConfusion (congrArg Prod.snd heq)
  · intro fd hm
    rw [expire_eq, removeAll_selector]
    apply List.mem_filter.mpr
    refine ⟨hm, ?_⟩
    rw [decide_eq_true_eq]
    intro hin
    obtain ⟨q, hqmem, hq1⟩ := List.mem_map.mp hin
    have hqL := (List.mem_filter.mp hqmem).1
    have hqSel : (q.1, SelData.client q.2) ∈ s.selector := mem_clientRegs.mp hqL
    have heq : (fd, SelData.ctrlRx) = (q.1, SelData.client q.2) :=
      key_inj s.selector hnd _ _ hm hqSel hq1.symm
    exact SelData.noConfusion (congrArg Prod.snd heq)

/-- Witness for C3 at concrete inputs: with timeout 10 at time 100, the
connection last used at 90 (exactly `now - timeout`) survives `expire`,
the one last used at 89 is evicted, closed, and the count drops by
exactly one. -/
theorem c3_expire_eviction_witness :
    (12, SelData.client connAt90) ∈ (expire cfgEx exTwoClients 100).selector ∧
    13 ∉ (expire cfgEx exTwoClients 100).selector.map Prod.fst ∧
    (expire cfgEx exTwoClients 100).closed_log = [connAt89] ∧
    (expire cfgEx exTwoClients 100).num_conns
        = exTwoClients.num_conns - 1 := by
  have h := c3_expire_eviction cfgEx exTwoClients 100 (by decide)
  refine ⟨h.1 12 connAt90 (by decide) (by decide),
    h.2.1 13 connAt89 (by decide) (by decide), ?_, ?_⟩
  · rw [h.2.2.1]
    decide
  · rw [h.2.2.2.1]
    decide

/-- The code's `''.join(buf)` equals the spec's format string with
`<n>` instantiated to the length of `<message>`. -/
theorem badRequestBuf_eq_spec (p : String) :
    badRequestBuf p = specBadRequest p noSSLMsg.length noSSLMsg := by
  unfold badRequestBuf specBadRequest
  apply String.ext
  simp only [String.data_append, List.append_assoc]
  congr 1

/-- C6: on the accept path, a timeout and every errno in the
interrupted / retry / peer-closed sets produce no connection and no
escaping exception; any errno outside all three sets propagates (and
still produces no connection). -/
theorem c6_accept_error_classification (cfg : ServerCfg) (es : ErrorSets)
    (wrap : WrapOutcome) (writeErr : Option Nat) :
    ((fromServerSocket cfg es AcceptInput.timeout wrap writeErr).conn
        = none ∧
     (fromServerSocket cfg es AcceptInput.timeout wrap writeErr).raised
        = none) ∧
    (∀ code,
      (fromServerSocket cfg es (AcceptInput.sockErr code) wrap
          writeErr).conn = none ∧
      ((es.eintr code = true ∨ es.nonblocking code = true ∨
          es.to_ignore code = true) →
        (fromServerSocket cfg es (AcceptInput.sockErr code) wrap
            writeErr).raised = none) ∧
      (es.eintr code = false → es.nonblocking code = false →
        es.to_ignore code = false →
        (fromServerSocket cfg es (AcceptInput.sockErr code) wrap
            writeErr).raised = some code)) := by
  refine ⟨⟨rfl, rfl⟩, ?_⟩
  intro code
  refine ⟨?_, ?_, ?_⟩
  · show (classifySockErr cfg es code [] 0).conn = none
    unfold classifySockErr
    by_cases h1 : es.eintr code <;> by_cases h2 : es.nonblocking code <;>
      by_cases h3 : es.to_ignore code <;> simp [h1, h2, h3]
  · show _ → (classifySockErr cfg es code [] 0).raised = none
    unfold classifySockErr
    rintro (h | h | h)
    · simp [h]
    · by_cases h1 : es.eintr code <;> simp [h1, h]
    · by_cases h1 : es.eintr code <;> by_cases h2 : es.nonblocking code <;>
        simp [h1, h2, h]
  · intro h1 h2 h3
    show (classifySockErr cfg es code [] 0).raised = some code
    unfold classifySockErr
    simp [h1, h2, h3]

/-- Witness for C6 at concrete inputs: a timeout and the errnos 4
(interrupted), 11 (retry), 104 (peer closed) are swallowed; errno 99 is
outside all three example sets and propagates. -/
theorem c6_accept_error_classification_witness :
    (fromServerSocket cfgEx esEx AcceptInput.timeout
        (WrapOutcome.ok none []) none).raised = none ∧
    (fromServerSocket cfgEx esEx (AcceptInput.sockErr 4)
        (WrapOutcome.ok none []) none).raised = none ∧
    (fromServerSocket cfgEx esEx (AcceptInput.sockErr 11)
        (WrapOutcome.ok none []) none).raised = none ∧
    (fromServerSocket cfgEx esEx (AcceptInput.sockErr 104)
        (WrapOutcome.ok none []) none).raised = none ∧
    (fromServerSocket cfgEx esEx (AcceptInput.sockErr 99)
        (WrapOutcome.ok none []) none).raised = some 99 ∧
    (fromServerSocket cfgEx esEx (AcceptInput.sockErr 99)
        (WrapOutcome.ok none []) none).conn = none := by
  have h := c6_accept_error_classification cfgEx esEx
    (WrapOutcome.ok none []) none
  exact ⟨h.1.2,
    (h.2 4).2.1 (Or.inl (by decide)),
    (h.2 11).2.1 (Or.inr (Or.inl (by decide))),
    (h.2 104).2.1 (Or.inr (Or.inr (by decide))),
    (h.2 99).2.2 (by decide) (by decide) (by decide),
    (h.2 99).1⟩

/-- C7: with a TLS adapter configured, on the "not a TLS handshake"
condition the acceptance path writes to the raw socket exactly the bytes
of `"<protocol> 400 Bad Request\r\nContent-Length: <n>\r\nContent-Type:
text/plain\r\n\r\n<message>"` with `<n>` the length of `<message>`,
encoded one byte per character, and returns with no connection object
and no exception. -/
theorem c7_nossl_bad_request (cfg : ServerCfg) (es : ErrorSets)
    (sck : Sock) (addr : Option (String × Nat))
    (hssl : cfg.has_ssl_adapter = true) :
    (fromServerSocket cfg es (AcceptInput.ok sck addr) WrapOutcome.noSSL
        none).sentBytes
      = encodeLatin1
          (specBadRequest cfg.protocol noSSLMsg.length noSSLMsg) ∧
    (fromServerSocket cfg es (AcceptInput.ok sck addr) WrapOutcome.noSSL
        none).sentBytes.length
      = (specBadRequest cfg.protocol noSSLMsg.length noSSLMsg).length ∧
    (fromServerSocket cfg es (AcceptInput.ok sck addr) WrapOutcome.noSSL
        none).conn = none ∧
    (fromServerSocket cfg es (AcceptInput.ok sck addr) WrapOutcome.noSSL
        none).raised = none := by
  obtain ⟨tm, ka, proto, stats, ssl, bind⟩ := cfg
  have hssl2 : ssl = true := hssl
  subst hssl2
  refine ⟨?_, ?_, rfl, rfl⟩
  · show encodeLatin1 (badRequestBuf proto) = _
    rw [badRequestBuf_eq_spec]
  · show (encodeLatin1 (badRequestBuf proto)).length = _
    rw [badRequestBuf_eq_spec]
    show ((specBadRequest proto noSSLMsg.length
      noSSLMsg).data.map Char.toNat).length = _
    rw [List.length_map]
    rfl

/-- Witness for C7 at a concrete configuration (protocol `HTTP/1.1`):
the exact byte list of the synthetic response. -/
theorem c7_nossl_bad_request_witness :
    (fromServerSocket { cfgEx with has_ssl_adapter := true } esEx
        (AcceptInput.ok { fd := 20, sockname_len := 2 } none)
        WrapOutcome.noSSL none).sentBytes
      = encodeLatin1
          (specBadRequest "HTTP/1.1" noSSLMsg.length noSSLMsg) ∧
    (fromServerSocket { cfgEx with has_ssl_adapter := true } esEx
        (AcceptInput.ok { fd := 20, sockname_len := 2 } none)
        WrapOutcome.noSSL none).conn = none :=
  ⟨(c7_nossl_bad_request { cfgEx with has_ssl_adapter := true } esEx
      { fd := 20, sockname_len := 2 } none rfl).1,
   (c7_nossl_bad_request { cfgEx with has_ssl_adapter := true } esEx
      { fd := 20, sockname_len := 2 } none rfl).2.2.1⟩

/-- Processing a readiness batch of client events followed by the
listening-socket event (and arbitrary later entries): the accepted
connection is returned; the client events seen before the listening
socket are unregistered and queued; entries after the listening socket
are not processed at all. -/
theorem getConnLoop_pre_clients (nc : Conn) (sfd : Nat)
    (post : List (Nat × SelData)) :
    ∀ (pre : List (Nat × SelData)) (s : CMState),
      (∀ e ∈ pre, ∃ fd c, e = (fd, SelData.client c)) →
      (getConnLoop (Except.ok (some nc)) s
          (pre ++ (sfd, SelData.server) :: post)).ret = some nc ∧
      (getConnLoop (Except.ok (some nc)) s
          (pre ++ (sfd, SelData.server) :: post)).err = none ∧
      (getConnLoop (Except.ok (some nc)) s
          (pre ++ (sfd, SelData.server) :: post)).st.readable_conns
        = s.readable_conns ++ (clientRegs pre).map Prod.snd ∧
      (getConnLoop (Except.ok (some nc)) s
          (pre ++ (sfd, SelData.server) :: post)).st.selector
        = s.selector.filter (fun r => decide (r.1 ∉ pre.map Prod.fst)) ∧
      (getConnLoop (Except.ok (some nc)) s
          (pre ++ (sfd, SelData.server) :: post)).st.put_q = s.put_q ∧
      (getConnLoop (Except.ok (some nc)) s
          (pre ++ (sfd, SelData.server) :: post)).st.num_conns
        = s.num_conns ∧
      (getConnLoop (Except.ok (some nc)) s
          (pre ++ (sfd, SelData.server) :: post)).st.ctrl_bytes
        = s.ctrl_bytes := by
  intro pre
  induction pre with
  | nil =>
    intro s _
    rw [List.nil_append, getConnLoop_cons_server]
    refine ⟨rfl, rfl, ?_, ?_, rfl, rfl, rfl⟩
    · show s.readable_conns
        = s.readable_conns ++ (clientRegs []).map Prod.snd
      rw [clientRegs_nil]
      simp
    · show s.selector = s.selector.filter fun r =>
        decide (r.1 ∉ ([] : List (Nat × SelData)).map Prod.fst)
      symm
      apply List.filter_eq_self.mpr
      intro a _
      simp
  | cons e pre2 ih =>
    intro s hpre
    obtain ⟨fd, c, rfl⟩ := hpre e (List.mem_cons_self e pre2)
    rw [List.cons_append, getConnLoop_cons_client]
    have ihh := ih
      { s with
          selector := s.selector.filter fun r => r.1 != fd
          readable_conns := s.readable_conns ++ [c] }
      (fun e2 he2 => hpre e2 (List.mem_cons_of_mem _ he2))
    refine ⟨ihh.1, ihh.2.1, ?_, ?_, ihh.2.2.2.2.1, ihh.2.2.2.2.2.1,
      ihh.2.2.2.2.2.2⟩
    · have h3 : (getConnLoop (Except.ok (some nc))
          { s with
              selector := s.selector.filter fun r => r.1 != fd
              readable_conns := s.readable_conns ++ [c] }
          (pre2 ++ (sfd, SelData.server) :: post)).st.readable_conns
            = (s.readable_conns ++ [c])
              ++ (clientRegs pre2).map Prod.snd := ihh.2.2.1
      rw [h3, List.append_assoc, clientRegs_cons_client, List.map_cons]
      rfl
    · have h4 : (getConnLoop (Except.ok (some nc))
          { s with
              selector := s.selector.filter fun r => r.1 != fd
              readable_conns := s.readable_conns ++ [c] }
          (pre2 ++ (sfd, SelData.server) :: post)).st.selector
            = (s.selector.filter fun r => r.1 != fd).filter
                (fun r => decide (r.1 ∉ pre2.map Prod.fst)) := ihh.2.2.2.1
      rw [h4, List.filter_filter]
      apply List.filter_congr
      intro r _
      by_cases h1 : r.1 = fd <;> by_cases h2 : r.1 ∈ pre2.map Prod.fst <;>
        simp [List.map_cons, List.mem_cons, h1, h2, bne]

/-- C8 (amended): within one readiness batch holding a listening-socket
event, when acceptance yields a connection that connection is the one
returned, never a ready client connection; the client events ordered
before the listening-socket event are unregistered and appended to the
readable queue; entries after the listening-socket event are left
untouched (the early return skips them), and counters and queues are
otherwise unchanged. -/
theorem c8_accept_priority (s : CMState) (nc : Conn) (sfd : Nat)
    (pre post : List (Nat × SelData))
    (hempty : s.readable_conns = [])
    (hpre : ∀ e ∈ pre, ∃ fd c, e = (fd, SelData.client c)) :
    (getConn s
        (SelectOutcome.ready (pre ++ (sfd, SelData.server) :: post))
        (Except.ok (some nc))).ret = some nc ∧
    (getConn s
        (SelectOutcome.ready (pre ++ (sfd, SelData.server) :: post))
        (Except.ok (some nc))).st.readable_conns
      = (clientRegs pre).map Prod.snd ∧
    (getConn s
        (SelectOutcome.ready (pre ++ (sfd, SelData.server) :: post))
        (Except.ok (some nc))).st.selector
      = s.selector.filter (fun r => decide (r.1 ∉ pre.map Prod.fst)) ∧
    (getConn s
        (SelectOutcome.ready (pre ++ (sfd, SelData.server) :: post))
        (Except.ok (some nc))).st.put_q = s.put_q ∧
    (getConn s
        (SelectOutcome.ready (pre ++ (sfd, SelData.server) :: post))
        (Except.ok (some nc))).st.num_conns = s.num_conns ∧
    (getConn s
        (SelectOutcome.ready (pre ++ (sfd, SelData.server) :: post))
        (Except.ok (some nc))).err = none := by
  rw [getConn_empty_ready hempty (pre ++ (sfd, SelData.server) :: post)
    (Except.ok (some nc))]
  have h := getConnLoop_pre_clients nc sfd post pre s hpre
  refine ⟨h.1, ?_, h.2.2.2.1, h.2.2.2.2.1, h.2.2.2.2.2.1, h.2.1⟩
  rw [h.2.2.1, hempty]
  rfl

/-- Witness for C8 (amended) at a concrete input: batch = one ready
client followed by the listening socket; the accepted connection is
returned and the earlier client is queued. -/
theorem c8_accept_priority_witness :
    (getConn exOneClient
        (SelectOutcome.ready
          ([(12, SelData.client connAt90)]
            ++ (3, SelData.server) :: []))
        (Except.ok (some connNew))).ret = some connNew ∧
    (getConn exOneClient
        (SelectOutcome.ready
          ([(12, SelData.client connAt90)]
            ++ (3, SelData.server) :: []))
        (Except.ok (some connNew))).st.readable_conns = [connAt90] := by
  have h := c8_accept_priority exOneClient connNew 3
    [(12, SelData.client connAt90)] [] rfl
    (fun e he => ⟨12, connAt90, by rw [List.mem_singleton] at he; exact he⟩)
  refine ⟨h.1, ?_⟩
  rw [h.2.1]
  rfl

/-- C8 counterexample to the claim as stated: in the batch
`[listening socket, ready client]` acceptance yields `connNew`, which is
returned — but the ready client connection seen in the same batch is
neither unregistered nor queued: it stays in the selector and the
readable queue ends empty, contradicting "the ready client connections
are only unregistered and queued onto the readable queue". -/
theorem c8_counterexample :
    (getConn exOneClient
        (SelectOutcome.ready
          [(3, SelData.server), (12, SelData.client connAt90)])
        (Except.ok (some connNew))).ret = some connNew ∧
    (getConn exOneClient
        (SelectOutcome.ready
          [(3, SelData.server), (12, SelData.client connAt90)])
        (Except.ok (some connNew))).st.readable_conns = [] ∧
    (12, SelData.client connAt90) ∈
      (getConn exOneClient
        (SelectOutcome.ready
          [(3, SelData.server), (12, SelData.client connAt90)])
        (Except.ok (some connNew))).st.selector := by
  decide
